import Mathlib

/-!
Verification of the EdgeFirst client test-suite conversion and
reconciliation helpers: a shallow embedding in Lean 4 of the pure Python
helper functions from `test/test_coco_studio_roundtrip.py`,
`test/test_datasets.py` and `test/test_advanced.py`, together with
theorems settling the specified properties.

Numeric convention: Python floats are modelled as rationals (ℚ); Python
division by zero raises `ZeroDivisionError`, modelled by `Option` with
`none` for the raising branch.
-/

namespace EdgeFirst

/-- An axis-aligned box `[x, y, w, h]` in COCO order (pixel or normalized
units; the Python code passes it around as a 4-element list). -/
structure Box4 where
  x : ℚ
  y : ℚ
  w : ℚ
  h : ℚ
deriving DecidableEq, Repr

/-- Embedding of `coco_bbox_to_normalized(bbox, width, height)` from
`test_coco_studio_roundtrip.py`: divides `x, w` by `width` and `y, h` by
`height`.  The Python function performs no dimension validation; the only
failure mode is `ZeroDivisionError` when `width` or `height` is zero,
modelled here as `none`. -/
def coco_bbox_to_normalized (b : Box4) (width height : ℚ) : Option Box4 :=
  if width = 0 ∨ height = 0 then none
  else some ⟨b.x / width, b.y / height, b.w / width, b.h / height⟩

/-- Embedding of `normalized_bbox_to_coco(bbox, width, height)` from
`test_coco_studio_roundtrip.py`: multiplies `x, w` by `width` and `y, h`
by `height`.  Total: multiplication never raises. -/
def normalized_bbox_to_coco (b : Box4) (width height : ℚ) : Box4 :=
  ⟨b.x * width, b.y * height, b.w * width, b.h * height⟩

/-- C3: Geometry round trip.  For every box and positive dimensions,
normalizing and then converting back to pixels reproduces every component
within `1e-9` absolute tolerance (in fact exactly, in exact arithmetic). -/
theorem coco_bbox_roundtrip (b : Box4) (width height : ℚ)
    (hw : 0 < width) (hh : 0 < height) :
    ∃ nb, coco_bbox_to_normalized b width height = some nb ∧
      |(normalized_bbox_to_coco nb width height).x - b.x| ≤ 1 / 10 ^ 9 ∧
      |(normalized_bbox_to_coco nb width height).y - b.y| ≤ 1 / 10 ^ 9 ∧
      |(normalized_bbox_to_coco nb width height).w - b.w| ≤ 1 / 10 ^ 9 ∧
      |(normalized_bbox_to_coco nb width height).h - b.h| ≤ 1 / 10 ^ 9 := by
  have hw0 : width ≠ 0 := ne_of_gt hw
  have hh0 : height ≠ 0 := ne_of_gt hh
  refine ⟨⟨b.x / width, b.y / height, b.w / width, b.h / height⟩, ?_, ?_, ?_, ?_, ?_⟩
  · simp [coco_bbox_to_normalized, hw0, hh0]
  all_goals
    simp only [normalized_bbox_to_coco]
    rw [div_mul_cancel₀ _ (by assumption)]
    simp

/-- Witness for C3 at the concrete input `b = (1,2,3,4)`, `width = 2`,
`height = 5`. -/
theorem coco_bbox_roundtrip_witness :
    (0 : ℚ) < 2 ∧ (0 : ℚ) < 5 ∧
      (∃ nb, coco_bbox_to_normalized ⟨1, 2, 3, 4⟩ 2 5 = some nb ∧
        |(normalized_bbox_to_coco nb 2 5).x - (1 : ℚ)| ≤ 1 / 10 ^ 9 ∧
        |(normalized_bbox_to_coco nb 2 5).y - (2 : ℚ)| ≤ 1 / 10 ^ 9 ∧
        |(normalized_bbox_to_coco nb 2 5).w - (3 : ℚ)| ≤ 1 / 10 ^ 9 ∧
        |(normalized_bbox_to_coco nb 2 5).h - (4 : ℚ)| ≤ 1 / 10 ^ 9) :=
  ⟨by norm_num, by norm_num,
    coco_bbox_roundtrip ⟨1, 2, 3, 4⟩ 2 5 (by norm_num) (by norm_num)⟩

/-- C6 counterexample: with `width = -2 ≤ 0` the conversion does NOT fail
(it happily divides by the negative width), contradicting the claim that
non-positive dimensions are rejected with `InvalidGeometry`. -/
theorem coco_bbox_negative_width_succeeds :
    (-2 : ℚ) ≤ 0 ∧
      coco_bbox_to_normalized ⟨1, 1, 1, 1⟩ (-2) 3 =
        some ⟨-(1 / 2), 1 / 3, -(1 / 2), 1 / 3⟩ := by
  constructor
  · norm_num
  · simp only [coco_bbox_to_normalized]
    norm_num

/-- C6 amended: the conversion fails (with `ZeroDivisionError`, there is
no `InvalidGeometry` check in the code) exactly when `width = 0` or
`height = 0`; for any other dimensions — positive or negative — it
succeeds and divides componentwise. -/
theorem coco_bbox_to_normalized_failure_iff (b : Box4) (width height : ℚ) :
    (coco_bbox_to_normalized b width height = none ↔ width = 0 ∨ height = 0) ∧
      (width ≠ 0 → height ≠ 0 →
        coco_bbox_to_normalized b width height =
          some ⟨b.x / width, b.y / height, b.w / width, b.h / height⟩) := by
  constructor
  · constructor
    · intro h
      by_contra hc
      push_neg at hc
      simp [coco_bbox_to_normalized, hc.1, hc.2] at h
    · intro h
      rcases h with h | h <;> simp [coco_bbox_to_normalized, h]
  · intro hw hh
    simp [coco_bbox_to_normalized, hw, hh]

/-- Witness for the amended C6 at `b = (1,2,3,4)`, `width = 2`,
`height = 3`. -/
theorem coco_bbox_to_normalized_failure_iff_witness :
    ((2 : ℚ) ≠ 0) ∧ ((3 : ℚ) ≠ 0) ∧
      coco_bbox_to_normalized ⟨1, 2, 3, 4⟩ 2 3 =
        some ⟨1 / 2, 2 / 3, 3 / 2, 4 / 3⟩ :=
  ⟨by norm_num, by norm_num,
    (coco_bbox_to_normalized_failure_iff ⟨1, 2, 3, 4⟩ 2 3).2
      (by norm_num) (by norm_num)⟩

/-! ## Reconciler (`test_datasets.py`)

`_annotation_signature` turns an annotation into the comparable tuple
`(label, object_id, group, bbox_sig, mask_sig)` with coordinates rounded
to 6 decimals; `_merge_annotation_signature` merges a partial signature
into an accumulating entry list; `_build_annotation_map` groups
signatures by image key, merges, then sorts each group by a Python
tuple key. -/

/-- Bounding-box component of a signature: `(left, top, width, height)`. -/
abbrev BSig := ℚ × ℚ × ℚ × ℚ

/-- Mask component of a signature: a tuple of polygons, each a tuple of
`(x, y)` points. -/
abbrev MSig := List (List (ℚ × ℚ))

/-- The comparable signature produced by `_annotation_signature`:
`(label, object_id, group, bbox_sig, mask_sig)`, each of the first three
possibly `None`. -/
structure AnnSig where
  label : Option String
  object_id : Option String
  group : Option String
  bbox : Option BSig
  mask : Option MSig
deriving DecidableEq, Repr

/-- `signature[:3]`, the identity key `(label, object_id, group)`. -/
def AnnSig.identity (s : AnnSig) : Option String × Option String × Option String :=
  (s.label, s.object_id, s.group)

/-- The updated entry `entries[idx] = (existing[0..2], updated_bbox,
updated_mask)` written back by `_merge_annotation_signature`: each unset
geometry field of the existing entry is filled from the incoming
signature, set fields are kept. -/
def fillEntry (e s : AnnSig) : AnnSig :=
  { e with bbox := if e.bbox ≠ none then e.bbox else s.bbox
           mask := if e.mask ≠ none then e.mask else s.mask }

/-- Embedding of the loop body of `_merge_annotation_signature`: scan the
entry list for the first entry with the same identity key into which the
incoming signature fills at least one unset geometry field; update that
entry (fill, don't overwrite) and report `true`, otherwise leave the list
unchanged and report `false`.  Entries sharing the identity key for which
the fill produces no change are skipped (the Python loop `continue`s past
them without returning). -/
def mergeEntries : List AnnSig → AnnSig → List AnnSig × Bool
  | [], _ => ([], false)
  | e :: rest, s =>
    if e.identity = s.identity then
      if (if e.bbox ≠ none then e.bbox else s.bbox) ≠ e.bbox ∨
          (if e.mask ≠ none then e.mask else s.mask) ≠ e.mask then
        (fillEntry e s :: rest, true)
      else
        (e :: (mergeEntries rest s).1, (mergeEntries rest s).2)
    else
      (e :: (mergeEntries rest s).1, (mergeEntries rest s).2)

/-- One step of the accumulation in `_build_annotation_map`: try to merge
the signature into the existing entries; append it as a new entry when
`_merge_annotation_signature` returns `False`. -/
def addSig (entries : List AnnSig) (s : AnnSig) : List AnnSig :=
  let r := mergeEntries entries s
  if r.2 then r.1 else r.1 ++ [s]

/-- Merging a whole list of signatures into an (initially empty) entry
list, exactly as the per-key accumulation of `_build_annotation_map`. -/
def mergeAll (sigs : List AnnSig) : List AnnSig :=
  sigs.foldl addSig []

/-- Three-way comparison of rationals (Python `<`/`>` on floats). -/
def cmpQ (a b : ℚ) : Ordering :=
  if a < b then .lt else if b < a then .gt else .eq

/-- Lexicographic comparison of lists, modelling Python tuple/string
comparison (a strict prefix sorts first). -/
def cmpListBy (f : α → α → Ordering) : List α → List α → Ordering
  | [], [] => .eq
  | [], _ :: _ => .lt
  | _ :: _, [] => .gt
  | a :: as, b :: bs => (f a b).then (cmpListBy f as bs)

/-- Three-way comparison of characters by code point. -/
def cmpChar (a b : Char) : Ordering :=
  if a.toNat < b.toNat then .lt else if b.toNat < a.toNat then .gt else .eq

/-- Three-way comparison of strings (Python code-point comparison). -/
def cmpS (a b : String) : Ordering :=
  cmpListBy cmpChar a.data b.data

/-- Comparison of bbox signatures (4-tuples, lexicographic). -/
def cmpB (a b : BSig) : Ordering :=
  (cmpQ a.1 b.1).then ((cmpQ a.2.1 b.2.1).then
    ((cmpQ a.2.2.1 b.2.2.1).then (cmpQ a.2.2.2 b.2.2.2)))

/-- Comparison of the sort-key view `item[3] or ()` of a bbox signature:
`None` becomes the empty tuple, which sorts before every 4-tuple. -/
def cmpOB : Option BSig → Option BSig → Ordering
  | none, none => .eq
  | none, some _ => .lt
  | some _, none => .gt
  | some a, some b => cmpB a b

/-- Comparison of `(x, y)` points. -/
def cmpPt (a b : ℚ × ℚ) : Ordering :=
  (cmpQ a.1 b.1).then (cmpQ a.2 b.2)

/-- Comparison of the sort-key view `item[4] or ()` of a mask signature:
both `None` and the empty tuple become `()`. -/
def cmpOM (a b : Option MSig) : Ordering :=
  cmpListBy (cmpListBy cmpPt) (a.getD []) (b.getD [])

/-- The Python sort key of `_build_annotation_map`:
`(item[0] or "", item[1] or "", item[3] or (), item[4] or ())`,
compared lexicographically. -/
def sigCmp (a b : AnnSig) : Ordering :=
  (cmpS (a.label.getD "") (b.label.getD "")).then
    ((cmpS (a.object_id.getD "") (b.object_id.getD "")).then
      ((cmpOB a.bbox b.bbox).then (cmpOM a.mask b.mask)))

/-- Non-strict order induced by the sort key. -/
def sigLe (a b : AnnSig) : Prop := sigCmp a b ≠ .gt

instance : DecidableRel sigLe := fun a b => by
  unfold sigLe; infer_instance

/-- Stable sort by the Python key, modelling `sorted(values, key=...)`. -/
def sortEntries (l : List AnnSig) : List AnnSig :=
  l.insertionSort sigLe

/-- Python `round` to the nearest integer (banker's rounding, ties to
even) on a rational.  The fractional part `q - ⌊q⌋` equals
`(q.num - ⌊q⌋ * q.den) / q.den` with positive denominator, so the
comparison against `1/2` is done on integers (kernel-reducible). -/
def pyRound (q : ℚ) : ℤ :=
  let f := q.floor
  let n := q.num - f * (q.den : ℤ)
  if 2 * n < (q.den : ℤ) then f
  else if (q.den : ℤ) < 2 * n then f + 1
  else if f % 2 = 0 then f else f + 1

/-- `round(x, 6)` as used by `_annotation_signature`: round `x * 10^6` to
the nearest integer (ties to even) and divide back.  `x * 10^6` is formed
as the rational `(x.num * 10^6) / x.den`. -/
def round6 (q : ℚ) : ℚ :=
  Rat.divInt (pyRound (Rat.divInt (q.num * 10 ^ 6) (q.den : ℤ))) (10 ^ 6)

/-- Normalized 2D box as stored on an annotation (left, top, width,
height in `[0, 1]`). -/
structure Box2d where
  left : ℚ
  top : ℚ
  width : ℚ
  height : ℚ
deriving DecidableEq, Repr

/-- The fields of an `edgefirst_client.Annotation` record used by the
dataset comparison helpers: the originating sample name plus identity and
geometry fields (each possibly `None`). -/
structure DsAnn where
  name : Option String
  label : Option String
  object_id : Option String
  group : Option String
  box2d : Option Box2d
  mask : Option MSig
deriving DecidableEq, Repr

/-- Split a character list on a separator (used to model `str.split` /
path handling on `String.data`, keeping everything kernel-reducible). -/
def splitChar (sep : Char) : List Char → List (List Char)
  | [] => [[]]
  | c :: rest =>
    match splitChar sep rest with
    | [] => [[c]]
    | g :: gs => if c = sep then [] :: g :: gs else (c :: g) :: gs

/-- `Path(s).stem`: final path component without its suffix (a lone
leading dot, as in `.bashrc`, is not a suffix separator). -/
def stem (s : String) : String :=
  let nm := (splitChar '/' s.data).getLastD s.data
  match splitChar '.' nm with
  | [] => ⟨nm⟩
  | [_] => ⟨nm⟩
  | [] :: [_] => ⟨nm⟩
  | parts => ⟨List.intercalate ['.'] parts.dropLast⟩

/-- Embedding of `_annotation_image_key`: the stem of the annotation's
originating sample name; the helper fails the test (fail-fast assertion)
when the name is missing, modelled by `none`. -/
def annImageKey (a : DsAnn) : Option String :=
  a.name.map stem

/-- Embedding of `_annotation_signature`: the comparable tuple with all
coordinates rounded to 6 decimal places. -/
def annSignature (a : DsAnn) : AnnSig :=
  { label := a.label
    object_id := a.object_id
    group := a.group
    bbox := a.box2d.map fun b =>
      (round6 b.left, round6 b.top, round6 b.width, round6 b.height)
    mask := a.mask.map fun m =>
      m.map fun poly => poly.map fun p => (round6 p.1, round6 p.2) }

/-- `grouped.setdefault(key, []) …` followed by the merge-or-append step,
on an insertion-ordered association list (Python dict). -/
def updateGroup : List (String × List AnnSig) → String → AnnSig →
    List (String × List AnnSig)
  | [], k, s => [(k, addSig [] s)]
  | (k', es) :: rest, k, s =>
    if k' = k then (k', addSig es s) :: rest
    else (k', es) :: updateGroup rest k s

/-- The accumulation loop of `_build_annotation_map` (before sorting);
`none` when some annotation has no recoverable image key (the Python
helper fails the test with an assertion in that case). -/
def groupMerge (anns : List DsAnn) : Option (List (String × List AnnSig)) :=
  anns.foldlM
    (fun m a =>
      match annImageKey a with
      | none => none
      | some k => some (updateGroup m k (annSignature a)))
    []

/-- Full embedding of `_build_annotation_map`: group and merge, then sort
each group by the Python tuple key. -/
def buildAnnotationMap (anns : List DsAnn) :
    Option (List (String × List AnnSig)) :=
  (groupMerge anns).map fun m => m.map fun kv => (kv.1, sortEntries kv.2)

/-- "Merging the entries of the result again": re-run the per-key
merge-then-sort pipeline on an already-built entry list. -/
def remergeEntries (es : List AnnSig) : List AnnSig :=
  sortEntries (mergeAll es)

/-- `covers e s`: merging signature `s` into entry `e` would change
nothing — every geometry field unset on `e` is also unset on `s`. -/
def covers (e s : AnnSig) : Prop :=
  (e.bbox = none → s.bbox = none) ∧ (e.mask = none → s.mask = none)

/-- Invariant of merged entry lists: among entries sharing an identity
key, an earlier entry covers every later one. -/
def goodList (l : List AnnSig) : Prop :=
  l.Pairwise fun a b => a.identity = b.identity → covers a b

theorem mergeEntries_eq_self (s : AnnSig) :
    ∀ es : List AnnSig, (∀ e ∈ es, e.identity = s.identity → covers e s) →
      mergeEntries es s = (es, false)
  | [], _ => rfl
  | e :: rest, h => by
    have hrest := mergeEntries_eq_self s rest
      (fun x hx => h x (List.mem_cons_of_mem _ hx))
    by_cases hid : e.identity = s.identity
    · have hc := h e (List.mem_cons_self _ _) hid
      have hub : (if e.bbox ≠ none then e.bbox else s.bbox) = e.bbox := by
        by_cases hb : e.bbox = none
        · simp [hb, hc.1 hb]
        · simp [hb]
      have hum : (if e.mask ≠ none then e.mask else s.mask) = e.mask := by
        by_cases hm : e.mask = none
        · simp [hm, hc.2 hm]
        · simp [hm]
      simp [mergeEntries, hid, hub, hum, hrest]
    · simp [mergeEntries, hid, hrest]

theorem fillEntry_identity (e s : AnnSig) :
    (fillEntry e s).identity = e.identity := rfl

/-- Complete case analysis of `_merge_annotation_signature`: either no
entry absorbs the signature (its geometry is covered by every entry that
shares its identity key) and the list is returned unchanged with `false`,
or the first same-identity entry into which `s` fills a missing field is
updated in place. -/
theorem mergeEntries_cases (s : AnnSig) : ∀ es : List AnnSig,
    (mergeEntries es s = (es, false) ∧
      (∀ e ∈ es, e.identity = s.identity → covers e s)) ∨
    (∃ pre e post, es = pre ++ e :: post ∧
      (∀ p ∈ pre, p.identity = s.identity → covers p s) ∧
      e.identity = s.identity ∧
      mergeEntries es s = (pre ++ fillEntry e s :: post, true))
  | [] => Or.inl ⟨rfl, by simp⟩
  | e :: rest => by
    by_cases hid : e.identity = s.identity
    · by_cases hch : (if e.bbox ≠ none then e.bbox else s.bbox) ≠ e.bbox ∨
        (if e.mask ≠ none then e.mask else s.mask) ≠ e.mask
      · refine Or.inr ⟨[], e, rest, rfl, by simp, hid, ?_⟩
        show mergeEntries (e :: rest) s = _
        simp only [mergeEntries]
        rw [if_pos hid, if_pos hch]
        simp
      · push_neg at hch
        have hcov : covers e s := by
          constructor
          · intro hb
            have := hch.1
            simpa [hb] using this
          · intro hm
            have := hch.2
            simpa [hm] using this
        rcases mergeEntries_cases s rest with ⟨h1, h2⟩ | ⟨pre, f, post, heq, hpre, hfid, hres⟩
        · refine Or.inl ⟨?_, ?_⟩
          · simp [mergeEntries, hid, hch.1, hch.2, h1]
          · intro x hx hxid
            rcases List.mem_cons.mp hx with rfl | hx'
            · exact hcov
            · exact h2 x hx' hxid
        · refine Or.inr ⟨e :: pre, f, post, by simp [heq], ?_, hfid, ?_⟩
          · intro p hp hpid
            rcases List.mem_cons.mp hp with rfl | hp'
            · exact hcov
            · exact hpre p hp' hpid
          · simp [mergeEntries, hid, hch.1, hch.2, hres]
    · rcases mergeEntries_cases s rest with ⟨h1, h2⟩ | ⟨pre, f, post, heq, hpre, hfid, hres⟩
      · refine Or.inl ⟨by simp [mergeEntries, hid, h1], ?_⟩
        intro x hx hxid
        rcases List.mem_cons.mp hx with rfl | hx'
        · exact absurd hxid hid
        · exact h2 x hx' hxid
      · refine Or.inr ⟨e :: pre, f, post, by simp [heq], ?_, hfid, ?_⟩
        · intro p hp hpid
          rcases List.mem_cons.mp hp with rfl | hp'
          · exact absurd hpid hid
          · exact hpre p hp' hpid
        · simp [mergeEntries, hid, hres]

theorem addSig_of_covers {es : List AnnSig} {s : AnnSig}
    (h : ∀ e ∈ es, e.identity = s.identity → covers e s) :
    addSig es s = es ++ [s] := by
  simp [addSig, mergeEntries_eq_self s es h]

theorem covers_fillEntry_left {p e s : AnnSig}
    (hpe : covers p e) (hps : covers p s) : covers p (fillEntry e s) := by
  constructor
  · intro hb
    simp only [fillEntry]
    simp [hpe.1 hb, hps.1 hb]
  · intro hm
    simp only [fillEntry]
    simp [hpe.2 hm, hps.2 hm]

theorem covers_fillEntry_right {e s q : AnnSig}
    (heq : covers e q) : covers (fillEntry e s) q := by
  constructor
  · intro hb
    apply heq.1
    by_cases h : e.bbox = none
    · exact h
    · have hproj : (fillEntry e s).bbox = if e.bbox ≠ none then e.bbox else s.bbox := rfl
      rw [hproj, if_pos h] at hb
      exact absurd hb h
  · intro hm
    apply heq.2
    by_cases h : e.mask = none
    · exact h
    · have hproj : (fillEntry e s).mask = if e.mask ≠ none then e.mask else s.mask := rfl
      rw [hproj, if_pos h] at hm
      exact absurd hm h

theorem goodList_addSig (s : AnnSig) {es : List AnnSig}
    (h : goodList es) : goodList (addSig es s) := by
  rcases mergeEntries_cases s es with ⟨h1, h2⟩ | ⟨pre, e, post, heq, hpre, hid, hres⟩
  · rw [addSig_of_covers h2]
    rw [goodList, List.pairwise_append]
    refine ⟨h, by simp, ?_⟩
    intro a ha b hb hab
    rcases List.mem_singleton.mp hb with rfl
    exact h2 a ha hab
  · have haddeq : addSig es s = pre ++ fillEntry e s :: post := by
      simp [addSig, hres]
    rw [haddeq]
    subst heq
    rw [goodList, List.pairwise_append] at h ⊢
    obtain ⟨hp, hep, hcross⟩ := h
    rw [List.pairwise_cons] at hep ⊢
    refine ⟨hp, ⟨?_, hep.2⟩, ?_⟩
    · intro q hq hiq
      rw [fillEntry_identity] at hiq
      exact covers_fillEntry_right (hep.1 q hq hiq)
    · intro a ha b hb hab
      rcases List.mem_cons.mp hb with rfl | hb'
      · rw [fillEntry_identity] at hab
        exact covers_fillEntry_left (hcross a ha e (List.mem_cons_self _ _) hab)
          (hpre a ha (hab.trans hid))
      · exact hcross a ha b (List.mem_cons_of_mem _ hb') hab

theorem goodList_foldl_addSig (xs : List AnnSig) :
    ∀ acc : List AnnSig, goodList acc → goodList (xs.foldl addSig acc) := by
  induction xs with
  | nil => intro acc h; exact h
  | cons x xs ih =>
    intro acc h
    exact ih (addSig acc x) (goodList_addSig x h)

theorem goodList_mergeAll (xs : List AnnSig) : goodList (mergeAll xs) :=
  goodList_foldl_addSig xs [] (by simp [goodList])

theorem foldl_addSig_of_goodList :
    ∀ (ys acc : List AnnSig), goodList (acc ++ ys) →
      ys.foldl addSig acc = acc ++ ys := by
  intro ys
  induction ys with
  | nil => intro acc _; simp
  | cons y ys ih =>
    intro acc h
    have hcov : ∀ e ∈ acc, e.identity = y.identity → covers e y := by
      intro e he hei
      unfold goodList at h
      have := (List.pairwise_append.mp h).2.2
      exact this e he y (List.mem_cons_self _ _) hei
    have hstep : addSig acc y = acc ++ [y] := addSig_of_covers hcov
    have h' : goodList ((acc ++ [y]) ++ ys) := by
      rw [List.append_assoc]
      simpa using h
    calc (y :: ys).foldl addSig acc = ys.foldl addSig (addSig acc y) := rfl
      _ = ys.foldl addSig (acc ++ [y]) := by rw [hstep]
      _ = (acc ++ [y]) ++ ys := ih (acc ++ [y]) h'
      _ = acc ++ y :: ys := by simp

/-- C1 amended: the raw merge accumulation (the per-key loop of
`_build_annotation_map`, before the final sort) is idempotent: re-merging
the merged entries in the order they were produced reproduces them
exactly. -/
theorem mergeAll_idempotent (xs : List AnnSig) :
    mergeAll (mergeAll xs) = mergeAll xs := by
  have := foldl_addSig_of_goodList (mergeAll xs) []
  simp only [List.nil_append] at this
  exact this (goodList_mergeAll xs)

/-- C1 counterexample: the full map-building pipeline is NOT idempotent,
because the final sort places a less-complete duplicate entry (empty
bbox key `()` sorts first) in front of the complete one, and a second
merge pass then absorbs the complete entry into it.  Two fragments with
identical identity key and mask, one also carrying a bbox, build the map
`{"img" ↦ [mask-only, bbox+mask]}`; merging those entries again yields
the single fully-merged entry, a different result.  (The merge also
keeps two entries for one identity key, contradicting the
"never creates duplicate entries" part.) -/
theorem buildAnnotationMap_not_idempotent :
    buildAnnotationMap
      [⟨some "img", some "x", some "1", some "g",
         some ⟨1, 1, 1, 1⟩, some [[(1, 1), (2, 1), (2, 2)]]⟩,
       ⟨some "img", some "x", some "1", some "g",
         none, some [[(1, 1), (2, 1), (2, 2)]]⟩] =
      some [("img",
        [⟨some "x", some "1", some "g", none, some [[(1, 1), (2, 1), (2, 2)]]⟩,
         ⟨some "x", some "1", some "g", some (1, 1, 1, 1),
           some [[(1, 1), (2, 1), (2, 2)]]⟩])] ∧
    remergeEntries
        [⟨some "x", some "1", some "g", none, some [[(1, 1), (2, 1), (2, 2)]]⟩,
         ⟨some "x", some "1", some "g", some (1, 1, 1, 1),
           some [[(1, 1), (2, 1), (2, 2)]]⟩] ≠
        [⟨some "x", some "1", some "g", none, some [[(1, 1), (2, 1), (2, 2)]]⟩,
         ⟨some "x", some "1", some "g", some (1, 1, 1, 1),
           some [[(1, 1), (2, 1), (2, 2)]]⟩] := by
  constructor
  · decide
  · decide

/-- C2 amended: fill-not-overwrite.  (1) A bbox-only fragment and a
mask-only fragment with the same identity key merge into a single entry
carrying both geometries.  (2) When the incoming fragment fills at least
one unset field, any conflicting value for an already-set field is
ignored (the existing value is kept).  (3) When the incoming fragment
fills nothing, it is appended unchanged as a second entry (its
conflicting value is retained in the result, not ignored). -/
theorem merge_fill_not_overwrite (l o g : Option String)
    (b b' : BSig) (m : MSig) :
    mergeAll [⟨l, o, g, some b, none⟩, ⟨l, o, g, none, some m⟩] =
      [⟨l, o, g, some b, some m⟩] ∧
    mergeAll [⟨l, o, g, some b, none⟩, ⟨l, o, g, some b', some m⟩] =
      [⟨l, o, g, some b, some m⟩] ∧
    mergeAll [⟨l, o, g, some b, none⟩, ⟨l, o, g, some b', none⟩] =
      [⟨l, o, g, some b, none⟩, ⟨l, o, g, some b', none⟩] := by
  refine ⟨?_, ?_, ?_⟩ <;>
    simp [mergeAll, addSig, mergeEntries, AnnSig.identity, fillEntry]

/-- C2 counterexample: two fragments that set the same geometry field
(bbox) and fill nothing else do NOT merge into one entry with the
incoming value ignored — the incoming fragment survives as a second
entry carrying its conflicting bbox. -/
theorem merge_conflicting_bbox_not_ignored :
    (mergeAll [⟨some "x", some "1", some "g", some (1, 1, 1, 1), none⟩,
               ⟨some "x", some "1", some "g", some (2, 2, 2, 2), none⟩]).length = 2 ∧
    (⟨some "x", some "1", some "g", some (2, 2, 2, 2), none⟩ : AnnSig) ∈
      mergeAll [⟨some "x", some "1", some "g", some (1, 1, 1, 1), none⟩,
                ⟨some "x", some "1", some "g", some (2, 2, 2, 2), none⟩] := by
  constructor
  · decide
  · decide

/-! ## Sequence identifier derivation (`test_advanced.py`)

`generate_sequence_uuid` hashes `f"{dataset_id}/{sequence_name}"` with
SHA-1, keeps the first 16 bytes, and forces byte 6 to
`(b & 0x0f) | 0x50` and byte 8 to `(b & 0x3f) | 0x80`.  SHA-1 itself
(`hashlib.sha1`) is modelled below from its standard definition, over
byte lists (`Nat` values `< 256`) with 32-bit words as `Nat % 2^32`. -/

/-- 32-bit left rotation (operand assumed `< 2^32`). -/
def rotl32 (x n : Nat) : Nat :=
  ((x <<< n) % 2 ^ 32) ||| (x >>> (32 - n))

/-- The SHA-1 round function for round `t`. -/
def sha1F (t b c d : Nat) : Nat :=
  if t < 20 then (b &&& c) ||| ((b ^^^ 0xffffffff) &&& d)
  else if t < 40 then b ^^^ c ^^^ d
  else if t < 60 then (b &&& c) ||| (b &&& d) ||| (c &&& d)
  else b ^^^ c ^^^ d

/-- The SHA-1 round constant for round `t`. -/
def sha1K (t : Nat) : Nat :=
  if t < 20 then 0x5A827999
  else if t < 40 then 0x6ED9EBA1
  else if t < 60 then 0x8F1BBCDC
  else 0xCA62C1D6

/-- Big-endian bytes (most significant first) of `n`, `k` bytes wide. -/
def beBytes : Nat → Nat → List Nat
  | 0, _ => []
  | k + 1, n => ((n >>> (8 * k)) % 256) :: beBytes k n

/-- Pack a byte list into 32-bit big-endian words. -/
def bytesToWords : List Nat → List Nat
  | b0 :: b1 :: b2 :: b3 :: rest =>
    (((b0 * 256 + b1) * 256 + b2) * 256 + b3) :: bytesToWords rest
  | _ => []

/-- Message-schedule extension, keeping the words most-recent-first:
each new word is `rotl1 (w[t-3] ^ w[t-8] ^ w[t-14] ^ w[t-16])`. -/
def extendAux : Nat → List Nat → List Nat
  | 0, r => r
  | n + 1, r =>
    extendAux n
      (rotl32 ((r.getD 2 0) ^^^ (r.getD 7 0) ^^^ (r.getD 13 0) ^^^ (r.getD 15 0)) 1 :: r)

/-- The 80-word message schedule of one 64-byte block. -/
def sha1Schedule (block : List Nat) : List Nat :=
  (extendAux 64 (bytesToWords block).reverse).reverse

/-- One SHA-1 compression round: state `(a, b, c, d, e)` updated with
round index `t` and schedule word `w`. -/
def sha1Round (st : Nat × Nat × Nat × Nat × Nat) (tw : Nat × Nat) :
    Nat × Nat × Nat × Nat × Nat :=
  ((rotl32 st.1 5 + sha1F tw.1 st.2.1 st.2.2.1 st.2.2.2.1 + st.2.2.2.2 +
      sha1K tw.1 + tw.2) % 2 ^ 32,
    st.1, rotl32 st.2.1 30, st.2.2.1, st.2.2.2.1)

/-- Process one 64-byte block: run the 80 rounds and add the result into
the running hash values modulo `2^32`. -/
def sha1Block (h : Nat × Nat × Nat × Nat × Nat) (block : List Nat) :
    Nat × Nat × Nat × Nat × Nat :=
  let r := (sha1Schedule block).enum.foldl sha1Round h
  ((h.1 + r.1) % 2 ^ 32, (h.2.1 + r.2.1) % 2 ^ 32, (h.2.2.1 + r.2.2.1) % 2 ^ 32,
    (h.2.2.2.1 + r.2.2.2.1) % 2 ^ 32, (h.2.2.2.2 + r.2.2.2.2) % 2 ^ 32)

/-- Split a list into 64-element chunks (fuel-based structural recursion;
the fuel `l.length + 1` always suffices since every step consumes at
least one element). -/
def chunks64F : Nat → List Nat → List (List Nat)
  | 0, _ => []
  | _ + 1, [] => []
  | fuel + 1, l => l.take 64 :: chunks64F fuel (l.drop 64)

/-- SHA-1 padding: append `0x80`, zeros up to 56 mod 64, then the bit
length as 8 big-endian bytes. -/
def sha1Pad (msg : List Nat) : List Nat :=
  msg ++ 0x80 :: List.replicate ((119 - msg.length % 64) % 64) 0 ++
    beBytes 8 (8 * msg.length)

/-- SHA-1 of a byte list: the 20-byte digest (model of
`hashlib.sha1(...).digest()`). -/
def sha1 (msg : List Nat) : List Nat :=
  let padded := sha1Pad msg
  let r := (chunks64F (padded.length + 1) padded).foldl sha1Block
    (0x67452301, 0xEFCDAB89, 0x98BADCFE, 0x10325476, 0xC3D2E1F0)
  beBytes 4 r.1 ++ beBytes 4 r.2.1 ++ beBytes 4 r.2.2.1 ++
    beBytes 4 r.2.2.2.1 ++ beBytes 4 r.2.2.2.2

/-- UTF-8 encoding of a code point (model of `str.encode()`). -/
def utf8EncodeCP (c : Nat) : List Nat :=
  if c < 0x80 then [c]
  else if c < 0x800 then [0xC0 + c / 64, 0x80 + c % 64]
  else if c < 0x10000 then
    [0xE0 + c / 4096, 0x80 + (c / 64) % 64, 0x80 + c % 64]
  else
    [0xF0 + c / 262144, 0x80 + (c / 4096) % 64, 0x80 + (c / 64) % 64,
      0x80 + c % 64]

/-- UTF-8 bytes of a string. -/
def utf8Bytes (s : String) : List Nat :=
  (s.data.map fun c => utf8EncodeCP c.toNat).flatten

/-- The byte-masking loop of `generate_sequence_uuid`:
`bytes_array[6] = (bytes_array[6] & 0x0f) | 0x50` and
`bytes_array[8] = (bytes_array[8] & 0x3f) | 0x80`. -/
def maskUuid (i : Nat) : List Nat → List Nat
  | [] => []
  | b :: rest =>
    (if i = 6 then (b &&& 0x0f) ||| 0x50
     else if i = 8 then (b &&& 0x3f) ||| 0x80
     else b) :: maskUuid (i + 1) rest

/-- Embedding of `generate_sequence_uuid` at the byte level: SHA-1 of
`f"{dataset_id}/{sequence_name}"`, first 16 bytes, bytes 6 and 8
masked. -/
def generate_sequence_uuid_bytes (dataset_id sequence_name : String) : List Nat :=
  maskUuid 0 ((sha1 (utf8Bytes (dataset_id ++ "/" ++ sequence_name))).take 16)

/-- The identifier as the claim words it: byte 6 has its version nibble
(high nibble) set to `5` keeping the low nibble, byte 8 has its two
variant bits set to the pattern `10` keeping the low six bits. -/
def maskUuidSpec (i : Nat) : List Nat → List Nat
  | [] => []
  | b :: rest =>
    (if i = 6 then 0x50 + b % 16
     else if i = 8 then 0x80 + b % 64
     else b) :: maskUuidSpec (i + 1) rest

/-- The claim's description of the derived identifier: the first 16 bytes
of the SHA-1 digest of the UTF-8 bytes of `"{dataset_id}/{sequence_name}"`
with the version nibble of byte 6 set to 5 and the variant bits of byte 8
set to `10`. -/
def deriveSpecUuidBytes (dataset_id sequence_name : String) : List Nat :=
  maskUuidSpec 0 ((sha1 (utf8Bytes (dataset_id ++ "/" ++ sequence_name))).take 16)

theorem beBytes_length (k n : Nat) : (beBytes k n).length = k := by
  induction k generalizing n with
  | zero => rfl
  | succ k ih => simp [beBytes, ih]

theorem sha1_length (msg : List Nat) : (sha1 msg).length = 20 := by
  simp [sha1, beBytes_length]

theorem maskUuid_length (l : List Nat) : ∀ i, (maskUuid i l).length = l.length := by
  induction l with
  | nil => intro i; rfl
  | cons b rest ih => intro i; simp [maskUuid, ih]

theorem land_fifteen (b : Nat) : b &&& 15 = b % 16 := by
  simpa using Nat.and_pow_two_sub_one_eq_mod b 4

theorem land_sixtythree (b : Nat) : b &&& 63 = b % 64 := by
  simpa using Nat.and_pow_two_sub_one_eq_mod b 6

theorem lor_eighty (x : Nat) (h : x < 16) : x ||| 80 = 80 + x := by
  revert x h
  decide

theorem lor_onetwentyeight (x : Nat) (h : x < 64) : x ||| 128 = 128 + x := by
  revert x h
  decide

theorem mask_byte6 (b : Nat) : (b &&& 0x0f) ||| 0x50 = 0x50 + b % 16 := by
  rw [land_fifteen]
  exact lor_eighty _ (Nat.mod_lt b (by norm_num))

theorem mask_byte8 (b : Nat) : (b &&& 0x3f) ||| 0x80 = 0x80 + b % 64 := by
  rw [land_sixtythree]
  exact lor_onetwentyeight _ (Nat.mod_lt b (by norm_num))

theorem maskUuid_eq_spec (l : List Nat) : ∀ i, maskUuid i l = maskUuidSpec i l := by
  induction l with
  | nil => intro i; rfl
  | cons b rest ih =>
    intro i
    simp only [maskUuid, maskUuidSpec, ih, mask_byte6, mask_byte8]

theorem maskUuid_getElem? (l : List Nat) : ∀ i j, (maskUuid i l)[j]? =
    (l[j]?).map fun b =>
      if i + j = 6 then (b &&& 0x0f) ||| 0x50
      else if i + j = 8 then (b &&& 0x3f) ||| 0x80
      else b := by
  induction l with
  | nil => intro i j; rfl
  | cons b rest ih =>
    intro i j
    cases j with
    | zero => simp [maskUuid]
    | succ j =>
      simp only [maskUuid, List.getElem?_cons_succ, ih (i + 1) j]
      have harith : i + 1 + j = i + (j + 1) := by omega
      rw [harith]

/-- C4: Sequence identifier derivation.  The bytes produced by
`generate_sequence_uuid` equal the first 16 bytes of the SHA-1 digest of
the UTF-8 bytes of `"{dataset_id}/{sequence_name}"` with the version
nibble of byte 6 set to 5 (low nibble kept) and the variant bits of byte
8 set to the pattern `10` (low six bits kept): the code's bit masking
refines the claim's description, the result is 16 bytes long, byte 6 has
high nibble 5 and byte 8 has top two bits `10`.  (Determinism and purity
are inherent: the embedding is a function of its two string arguments and
reads no other state.) -/
theorem generate_sequence_uuid_spec (dataset_id sequence_name : String) :
    generate_sequence_uuid_bytes dataset_id sequence_name =
      deriveSpecUuidBytes dataset_id sequence_name ∧
    (generate_sequence_uuid_bytes dataset_id sequence_name).length = 16 ∧
    (∃ v, (generate_sequence_uuid_bytes dataset_id sequence_name)[6]? = some v ∧
      v / 16 = 5) ∧
    (∃ v, (generate_sequence_uuid_bytes dataset_id sequence_name)[8]? = some v ∧
      v / 64 = 2) := by
  have hdigestlen : ((sha1 (utf8Bytes (dataset_id ++ "/" ++ sequence_name))).take 16).length = 16 := by
    rw [List.length_take, sha1_length]
    norm_num
  refine ⟨maskUuid_eq_spec _ 0, ?_, ?_, ?_⟩
  · rw [generate_sequence_uuid_bytes, maskUuid_length, hdigestlen]
  · obtain ⟨b, hb⟩ : ∃ b,
        ((sha1 (utf8Bytes (dataset_id ++ "/" ++ sequence_name))).take 16)[6]? = some b := by
      refine ⟨_, List.getElem?_eq_getElem ?_⟩
      omega
    refine ⟨(b &&& 0x0f) ||| 0x50, ?_, ?_⟩
    · rw [generate_sequence_uuid_bytes, maskUuid_getElem?, hb]
      simp
    · rw [mask_byte6]
      have : b % 16 < 16 := Nat.mod_lt b (by norm_num)
      omega
  · obtain ⟨b, hb⟩ : ∃ b,
        ((sha1 (utf8Bytes (dataset_id ++ "/" ++ sequence_name))).take 16)[8]? = some b := by
      refine ⟨_, List.getElem?_eq_getElem ?_⟩
      omega
    refine ⟨(b &&& 0x3f) ||| 0x80, ?_, ?_⟩
    · rw [generate_sequence_uuid_bytes, maskUuid_getElem?, hb]
      simp
    · rw [mask_byte8]
      have : b % 64 < 64 := Nat.mod_lt b (by norm_num)
      omega

/-! ## COCO ↔ Studio conversion (`test_coco_studio_roundtrip.py`)

`coco_to_samples`, `samples_to_coco` and `_compare_coco_annotations`
over the COCO-like dicts and `Sample`/annotation objects.  Python
`x or default` (which replaces falsy values: `None`, `""`, `0`) is
modelled by `pyOrStr`/`pyOrZ`. -/

/-- Python `s or default` for an optional string (`None` and `""` are
falsy). -/
def pyOrStr (o : Option String) (d : String) : String :=
  match o with
  | none => d
  | some s => if s = "" then d else s

/-- Python `n or default` for an optional integer (`None` and `0` are
falsy). -/
def pyOrZ (o : Option ℤ) (d : ℤ) : ℤ :=
  match o with
  | none => d
  | some n => if n = 0 then d else n

/-- Division of rationals in kernel-reducible form:
`a / b = (a.num * b.den) / (a.den * b.num)` as a `Rat.divInt`.
`qdiv_eq_div` below proves it agrees with `·/·` on ℚ. -/
def qdiv (a b : ℚ) : ℚ :=
  Rat.divInt (a.num * (b.den : ℤ)) ((a.den : ℤ) * b.num)

theorem qdiv_eq_div (a b : ℚ) : qdiv a b = a / b := by
  rcases eq_or_ne b 0 with rfl | hb
  · simp [qdiv, Rat.divInt_eq_div]
  · have hbn : (b.num : ℚ) ≠ 0 := by
      exact_mod_cast Rat.num_ne_zero.mpr hb
    have had : ((a.den : ℤ) : ℚ) ≠ 0 := by
      exact_mod_cast a.den_nz
    have hbd : ((b.den : ℤ) : ℚ) ≠ 0 := by
      exact_mod_cast b.den_nz
    rw [qdiv, Rat.divInt_eq_div]
    push_cast
    conv_rhs => rw [← Rat.num_div_den a, ← Rat.num_div_den b]
    rw [div_div_div_eq]

/-- An `images` entry of a COCO dict. -/
structure CocoImage where
  id : ℤ
  width : ℚ
  height : ℚ
  file_name : String
deriving DecidableEq, Repr

/-- An `annotations` entry of a COCO dict (the constant `iscrowd: 0`
carries no information and is not modelled; an absent or empty
`segmentation` is the empty list, matching the code's falsy test). -/
structure CocoAnn where
  id : ℤ
  image_id : ℤ
  category_id : ℤ
  bbox : Box4
  area : ℚ
  segmentation : List (List ℚ)
deriving DecidableEq, Repr

/-- A `categories` entry of a COCO dict (`supercategory` is never read
by the conversion code and is not modelled). -/
structure CocoCat where
  id : ℤ
  name : String
deriving DecidableEq, Repr

/-- A COCO dataset dict (`info`/`licenses` are never read). -/
structure CocoData where
  images : List CocoImage
  annotations : List CocoAnn
  categories : List CocoCat
deriving DecidableEq, Repr

/-- The fields of an `edgefirst_client.Annotation` used by the COCO
converters. -/
structure StAnn where
  label : Option String := none
  object_id : Option String := none
  box2d : Option Box2d := none
  mask : Option MSig := none
deriving DecidableEq, Repr

/-- The fields of an `edgefirst_client.Sample` used by the COCO
converters (`image_name` is set on import, `name`/`width`/`height` are
read on export; attached files are not modelled). -/
structure Sample where
  name : Option String := none
  image_name : Option String := none
  group : Option String := none
  width : Option ℤ := none
  height : Option ℤ := none
  anns : List StAnn := []
deriving DecidableEq, Repr

/-- Append a value to the list stored under a key, creating the entry at
the end when absent (Python `dict.setdefault(k, []).append(v)` on an
insertion-ordered dict). -/
def pushGroup [DecidableEq κ] : List (κ × List ν) → κ → ν → List (κ × List ν)
  | [], k, v => [(k, [v])]
  | (k', l) :: rest, k, v =>
    if k' = k then (k', l ++ [v]) :: rest
    else (k', l) :: pushGroup rest k v

/-- `d.get(k)` on an insertion-ordered association list. -/
def dictGet [DecidableEq κ] (d : List (κ × ν)) (k : κ) : Option ν :=
  (d.find? fun kv => decide (kv.1 = k)).map (·.2)

/-- `d.get(k, [])` for a grouping dict. -/
def dictGetList [DecidableEq κ] (d : List (κ × List ν)) (k : κ) : List ν :=
  (dictGet d k).getD []

/-- `d[k] = v` on an insertion-ordered dict: overwrite in place when the
key exists, append otherwise. -/
def dictInsert [DecidableEq κ] (d : List (κ × ν)) (k : κ) (v : ν) : List (κ × ν) :=
  if (d.find? fun kv => decide (kv.1 = k)).isSome then
    d.map fun kv => if kv.1 = k then (k, v) else kv
  else d ++ [(k, v)]

/-- Build an insertion-ordered dict from key/value pairs (later pairs
overwrite earlier ones, as in a Python dict comprehension). -/
def buildDict [DecidableEq κ] (ps : List (κ × ν)) : List (κ × ν) :=
  ps.foldl (fun d p => dictInsert d p.1 p.2) []

/-- Abort-on-failure list map: the Python `for` loop, where an exception
in any iteration aborts the whole conversion. -/
def mapOpt (f : α → Option β) : List α → Option (List β)
  | [] => some []
  | a :: as =>
    match f a with
    | none => none
    | some b => (mapOpt f as).map (b :: ·)

/-- Pair up a flat coordinate list `[x1, y1, x2, y2, ...]`. -/
def toPairs : List ℚ → List (ℚ × ℚ)
  | x :: y :: rest => (x, y) :: toPairs rest
  | _ => []

/-- Embedding of `coco_polygon_to_normalized(polygon, width, height)`:
divide alternating coordinates by width and height.  Callers only reach
it after `coco_bbox_to_normalized` succeeded, so `width, height ≠ 0`. -/
def coco_polygon_to_normalized (polygon : List ℚ) (width height : ℚ) :
    List (ℚ × ℚ) :=
  (toPairs polygon).map fun p => (qdiv p.1 width, qdiv p.2 height)

/-- Embedding of `normalized_polygon_to_coco(polygon, width, height)`. -/
def normalized_polygon_to_coco (polygon : List (ℚ × ℚ)) (width height : ℚ) :
    List ℚ :=
  (polygon.map fun p => [p.1 * width, p.2 * height]).flatten

/-- `{cat["id"]: cat["name"] for cat in coco_data["categories"]}`. -/
def catNameDict (cats : List CocoCat) : List (ℤ × String) :=
  buildDict (cats.map fun c => (c.id, c.name))

/-- Conversion of one COCO annotation to a Studio annotation inside
`coco_to_samples`: label from the category dict (default `"unknown"`),
object id `f"coco-{ann['id']}"`, normalized bbox (fails on zero image
dimensions), and a mask from the `segmentation` polygons of at least 6
scalars, when any survive. -/
def cocoAnnToSt (cats : List (ℤ × String)) (width height : ℚ) (a : CocoAnn) :
    Option StAnn :=
  (coco_bbox_to_normalized a.bbox width height).map fun nb =>
    { label := some ((dictGet cats a.category_id).getD "unknown")
      object_id := some ("coco-" ++ toString a.id)
      box2d := some ⟨nb.x, nb.y, nb.w, nb.h⟩
      mask :=
        if a.segmentation = [] then none
        else
          match (a.segmentation.filter fun p => 6 ≤ p.length).map
              (fun p => coco_polygon_to_normalized p width height) with
          | [] => none
          | ps => some ps }

/-- Embedding of `coco_to_samples(coco_data, group)`: one sample per
`images` entry, image name = file-name stem, group set only when truthy,
annotations taken from the `image_id` grouping (annotations whose
`image_id` matches no image are never visited); `none` when a conversion
raises (zero image dimension). -/
def coco_to_samples (coco : CocoData) (group : Option String) :
    Option (List Sample) :=
  let imgAnns := coco.annotations.foldl (fun gs a => pushGroup gs a.image_id a) []
  let cats := catNameDict coco.categories
  mapOpt
    (fun image =>
      (mapOpt (cocoAnnToSt cats image.width image.height)
          (dictGetList imgAnns image.id)).map fun sts =>
        { image_name := some (stem image.file_name)
          group := match group with
            | none => none
            | some g => if g = "" then none else some g
          anns := sts })
    coco.images

/-- An output annotation record of `samples_to_coco` (`iscrowd: 0`
omitted; `bbox`/`area` always present, `segmentation` optional). -/
structure CocoOutAnn where
  id : Nat
  image_id : Nat
  category_id : Nat
  bbox : Box4
  area : ℚ
  segmentation : Option (List (List ℚ))
deriving DecidableEq, Repr

/-- The COCO dict produced by `samples_to_coco`. -/
structure CocoOut where
  images : List CocoImage
  annotations : List CocoOutAnn
  categories : List CocoCat
deriving DecidableEq, Repr

/-- The category-resolver step of `samples_to_coco`: on a missing label,
insert it with id `len(categories) + 1`. -/
def catStep (cats : List (String × Nat)) (label : String) : List (String × Nat) :=
  if (cats.find? fun kv => decide (kv.1 = label)).isSome then cats
  else cats ++ [(label, cats.length + 1)]

/-- `categories[label]["id"]`. -/
def catLookup (cats : List (String × Nat)) (label : String) : Option Nat :=
  (cats.find? fun kv => decide (kv.1 = label)).map (·.2)

/-- The Python `label = ann.label or "unknown"` of `samples_to_coco`. -/
def stLabel (a : StAnn) : String := pyOrStr a.label "unknown"

/-- The record built for one annotation in `samples_to_coco`: bbox
denormalized through `normalized_bbox_to_coco` with
`area = bbox[2] * bbox[3]`, or `[0, 0, 0, 0]` with area 0 when the
annotation has no box; segmentation from the mask polygons whose
converted flat lists have at least 6 scalars, when masks are included
and any survive. -/
def stAnnRecord (annId imgId catId : Nat) (width height : ℚ)
    (include_masks : Bool) (a : StAnn) : CocoOutAnn :=
  let ba : Box4 × ℚ :=
    match a.box2d with
    | some b =>
      let cb := normalized_bbox_to_coco ⟨b.left, b.top, b.width, b.height⟩ width height
      (cb, cb.w * cb.h)
    | none => (⟨0, 0, 0, 0⟩, 0)
  let seg : Option (List (List ℚ)) :=
    if include_masks then
      match a.mask with
      | some polys =>
        match (polys.map fun p => normalized_polygon_to_coco p width height).filter
            (fun cp => 6 ≤ cp.length) with
        | [] => none
        | cps => some cps
      | none => none
    else none
  ⟨annId, imgId, catId, ba.1, ba.2, seg⟩

/-- The inner annotation loop of `samples_to_coco`: produce one record
per annotation, threading the category dict and the running
`annotation_id`. -/
def stAnnsLoop (width height : ℚ) (include_masks : Bool) (imgId : Nat) :
    List StAnn → List (String × Nat) → Nat →
      List CocoOutAnn × List (String × Nat) × Nat
  | [], cats, annId => ([], cats, annId)
  | a :: rest, cats, annId =>
    let cats' := catStep cats (stLabel a)
    let catId := (catLookup cats' (stLabel a)).getD 0
    let r := stAnnsLoop width height include_masks imgId rest cats' (annId + 1)
    (stAnnRecord annId imgId catId width height include_masks a :: r.1, r.2)

/-- The outer sample loop of `samples_to_coco` (`enumerate(samples,
start=1)`), threading image ids, the category dict and annotation ids. -/
def stSamplesLoop (include_masks : Bool) :
    List Sample → Nat → List (String × Nat) → Nat →
      List CocoImage × List CocoOutAnn × List (String × Nat) × Nat
  | [], _, cats, annId => ([], [], cats, annId)
  | s :: rest, imgId, cats, annId =>
    let nm := pyOrStr s.name ("image_" ++ toString imgId)
    let w := pyOrZ s.width 640
    let h := pyOrZ s.height 480
    let ar := stAnnsLoop (w : ℚ) (h : ℚ) include_masks imgId s.anns cats annId
    let r := stSamplesLoop include_masks rest (imgId + 1) ar.2.1 ar.2.2
    (⟨(imgId : ℤ), (w : ℚ), (h : ℚ), nm ++ ".jpg"⟩ :: r.1,
      ar.1 ++ r.2.1, r.2.2)

/-- Embedding of `samples_to_coco(samples, include_masks)`. -/
def samples_to_coco (samples : List Sample) (include_masks : Bool) : CocoOut :=
  let r := stSamplesLoop include_masks samples 1 [] 1
  ⟨r.1, r.2.1, r.2.2.1.map fun kv => ⟨(kv.2 : ℤ), kv.1⟩⟩

/-- The category association list produced by a `samples_to_coco` run. -/
def catsOf (samples : List Sample) (include_masks : Bool) : List (String × Nat) :=
  (stSamplesLoop include_masks samples 1 [] 1).2.2.1

/-- The sequence of (defaulted) labels visited by `samples_to_coco`, in
visit order. -/
def labelSeq (samples : List Sample) : List String :=
  (samples.map fun s => s.anns.map stLabel).flatten

/-! ### Round-trip comparator (`_compare_coco_annotations`) -/

/-- The diagnostic strings appended to `results["differences"]`, modelled
structurally (one constructor per `append` site, carrying the data the
f-string interpolates). -/
inductive Diff where
  | imageCount (origCount expCount : Nat)
  | categorySets (origNames expNames : List String)
  | annCount (img : String) (origCount expCount : Nat)
  | labelDiff (img : String) (i : Nat) (orig exp : String)
  | bboxDiff (img : String) (i j : Nat) (orig exp : ℚ)
deriving DecidableEq, Repr

/-- The comparator's result dict. -/
structure CompResult where
  images_match : Bool
  annotations_match : Bool
  categories_match : Bool
  differences : List Diff
deriving DecidableEq, Repr

/-- Python set equality of two string collections. -/
def setEqB (a b : List String) : Bool :=
  (a.all fun s => b.contains s) && (b.all fun s => a.contains s)

/-- A grouped comparator entry `{"label": …, "bbox": …}` with the bbox
already normalized. -/
abbrev LB := String × BSig

/-- Normalize a bbox by the image dimensions inside `group_by_image`
(`ZeroDivisionError` on a zero dimension, modelled as `none`). -/
def normBBoxAt (b : Box4) (w h : ℚ) : Option BSig :=
  if w = 0 ∨ h = 0 then none
  else some (qdiv b.x w, qdiv b.y h, qdiv b.w w, qdiv b.h h)

/-- Embedding of the nested `group_by_image(dataset, cat_names)` of
`_compare_coco_annotations`: skip annotations whose `image_id` resolves
to no (truthy) image name, normalize bboxes by the image dimensions
(default `(640, 480)`), and group the `(label, bbox)` entries by image
name. -/
def groupByImage (d : CocoData) (catNames : List (ℤ × String)) :
    Option (List (String × List LB)) :=
  let idToName := buildDict (d.images.map fun im => (im.id, stem im.file_name))
  let idToDims := buildDict (d.images.map fun im => (im.id, (im.width, im.height)))
  d.annotations.foldlM
    (fun acc ann =>
      match dictGet idToName ann.image_id with
      | none => some acc
      | some nm =>
        if nm = "" then some acc
        else
          let dims := (dictGet idToDims ann.image_id).getD (640, 480)
          (normBBoxAt ann.bbox dims.1 dims.2).map fun nb =>
            pushGroup acc nm ((dictGet catNames ann.category_id).getD "unknown", nb))
    []

/-- The Python sort key `lambda a: (a["label"], tuple(a["bbox"]))`. -/
def lbLe (a b : LB) : Prop := ((cmpS a.1 b.1).then (cmpB a.2 b.2)) ≠ .gt

instance : DecidableRel lbLe := fun a b => by
  unfold lbLe; infer_instance

/-- `sorted(anns, key=lambda a: (a["label"], tuple(a["bbox"])))`. -/
def sortLB (l : List LB) : List LB := l.insertionSort lbLe

/-- The bbox-component comparison loop (`for j, (o, e) in
enumerate(zip(orig["bbox"], exp["bbox"]))`), unrolled over the four
components: one difference per component pair whose absolute difference
exceeds the tolerance. -/
def bboxDiffs (img : String) (i : Nat) (tol : ℚ) (o e : BSig) : List Diff :=
  (if |o.1 - e.1| > tol then [.bboxDiff img i 0 o.1 e.1] else []) ++
  (if |o.2.1 - e.2.1| > tol then [.bboxDiff img i 1 o.2.1 e.2.1] else []) ++
  (if |o.2.2.1 - e.2.2.1| > tol then [.bboxDiff img i 2 o.2.2.1 e.2.2.1] else []) ++
  (if |o.2.2.2 - e.2.2.2| > tol then [.bboxDiff img i 3 o.2.2.2 e.2.2.2] else [])

/-- The element-wise comparison of the two sorted annotation lists of one
image: label mismatch and out-of-tolerance bbox components each record a
difference and clear `annotations_match`; `zip` stops at the shorter
list (the caller only reaches this with equal lengths). -/
def pairsLoop (img : String) (tol : ℚ) : Nat → List LB → List LB →
    Bool × List Diff
  | _, [], _ => (true, [])
  | _, _, [] => (true, [])
  | i, o :: os, e :: es =>
    let ld : List Diff := if o.1 ≠ e.1 then [.labelDiff img i o.1 e.1] else []
    let bd := bboxDiffs img i tol o.2 e.2
    let r := pairsLoop img tol (i + 1) os es
    ((decide (o.1 = e.1) && bd.isEmpty) && r.1, (ld ++ bd) ++ r.2)

/-- The per-image loop of `_compare_coco_annotations`: iterate over the
original grouping's keys; a count mismatch records one difference and
skips the element comparison (`continue`); otherwise both sides are
sorted and compared element-wise. -/
def imgLoop (tol : ℚ) (eg : List (String × List LB)) :
    List (String × List LB) → Bool × List Diff
  | [] => (true, [])
  | (img, oanns) :: rest =>
    let eanns := dictGetList eg img
    let r := imgLoop tol eg rest
    if oanns.length ≠ eanns.length then
      (false, .annCount img oanns.length eanns.length :: r.2)
    else
      let p := pairsLoop img tol 0 (sortLB oanns) (sortLB eanns)
      (p.1 && r.1, p.2 ++ r.2)

/-- Embedding of `_compare_coco_annotations(original, exported,
tolerance)`: compare image counts, category-name sets, then the grouped
annotations of the original's image keys; mismatches are recorded in the
result rather than raised.  `none` models a `ZeroDivisionError` escaping
from the bbox normalization. -/
def compareCoco (original exported : CocoData) (tol : ℚ) :
    Option CompResult :=
  let imagesMatch := original.images.length = exported.images.length
  let d1 : List Diff :=
    if imagesMatch then []
    else [.imageCount original.images.length exported.images.length]
  let origCats := catNameDict original.categories
  let expCats := catNameDict exported.categories
  let catsMatch := setEqB (origCats.map (·.2)) (expCats.map (·.2))
  let d2 : List Diff :=
    if catsMatch then []
    else [.categorySets (origCats.map (·.2)) (expCats.map (·.2))]
  (groupByImage original origCats).bind fun og =>
    (groupByImage exported expCats).map fun eg =>
      let a := imgLoop tol eg og
      ⟨decide imagesMatch, a.1, catsMatch, (d1 ++ d2) ++ a.2⟩

/-! ### Theorems about `coco_to_samples` (C5) -/

theorem dictGetList_pushGroup [DecidableEq κ] (gs : List (κ × List ν)) (k : κ) (v : ν) (i : κ) :
    dictGetList (pushGroup gs k v) i =
      if k = i then dictGetList gs i ++ [v] else dictGetList gs i := by
  induction gs with
  | nil =>
    by_cases hk : k = i <;> simp [pushGroup, dictGetList, dictGet, List.find?, hk]
  | cons kv rest ih =>
    obtain ⟨k', l⟩ := kv
    by_cases hk : k' = k
    · subst hk
      by_cases hi : k' = i
      · subst hi
        simp [pushGroup, dictGetList, dictGet, List.find?]
      · simp [pushGroup, dictGetList, dictGet, List.find?, hi]
    · by_cases hi : k' = i
      · subst hi
        have hki : ¬ k = k' := fun h => hk h.symm
        simp [pushGroup, dictGetList, dictGet, List.find?, hk, hki]
      · simp only [pushGroup, if_neg hk]
        by_cases hkk : k = i
        · subst hkk
          simpa [dictGetList, dictGet, List.find?, hi] using ih
        · simpa [dictGetList, dictGet, List.find?, hi, hkk] using ih

theorem dictGetList_foldl_pushGroup :
    ∀ (anns : List CocoAnn) (gs : List (ℤ × List CocoAnn)) (i : ℤ),
      dictGetList (anns.foldl (fun gs a => pushGroup gs a.image_id a) gs) i =
        dictGetList gs i ++ anns.filter fun a => decide (a.image_id = i) := by
  intro anns
  induction anns with
  | nil => intro gs i; simp
  | cons a anns ih =>
    intro gs i
    rw [List.foldl_cons, ih, dictGetList_pushGroup]
    by_cases h : a.image_id = i
    · simp [List.filter_cons, h]
    · simp [List.filter_cons, h]

theorem mapOpt_forall₂ (f : α → Option β) :
    ∀ (l : List α) (r : List β), mapOpt f l = some r →
      List.Forall₂ (fun a b => f a = some b) l r := by
  intro l
  induction l with
  | nil =>
    intro r h
    simp only [mapOpt, Option.some_inj] at h
    subst h
    exact List.Forall₂.nil
  | cons a as ih =>
    intro r h
    simp only [mapOpt] at h
    cases hf : f a with
    | none => rw [hf] at h; exact absurd h (by simp)
    | some b =>
      rw [hf] at h
      rcases Option.map_eq_some'.mp h with ⟨rs, hrs, hr⟩
      subst hr
      exact List.Forall₂.cons hf (ih rs hrs)

theorem mapOpt_length (f : α → Option β) :
    ∀ (l : List α) (r : List β), mapOpt f l = some r → r.length = l.length := by
  intro l r h
  exact (List.Forall₂.length_eq (mapOpt_forall₂ f l r h)).symm

/-- C5 counterexample: an annotation whose `image_id` (2) matches no
image is silently dropped by `coco_to_samples` — the conversion succeeds
with an empty annotation list instead of failing with
`MissingImageAssociation` (no such error exists in the code). -/
theorem coco_to_samples_dangling_dropped :
    coco_to_samples
        ⟨[⟨1, 100, 100, "img.jpg"⟩],
         [⟨1, 2, 1, ⟨10, 10, 20, 20⟩, 400, []⟩],
         [⟨1, "cat"⟩]⟩ none =
      some [{ image_name := some "img", anns := [] }] := by
  decide

/-- C5 amended: `coco_to_samples` never fails on a dangling annotation;
each produced sample carries exactly the annotations whose `image_id`
equals its image's `id`, so annotations whose `image_id` matches no
image are silently dropped from the output.  (The dataset-comparison
helper `_annotation_image_key` is the one place that fails fast, via a
test assertion, when an annotation lacks an originating sample name —
modelled as the `none` result of `annImageKey`/`buildAnnotationMap`.) -/
theorem coco_to_samples_filters_by_image_id (coco : CocoData)
    (group : Option String) (samples : List Sample)
    (h : coco_to_samples coco group = some samples) :
    List.Forall₂
      (fun (im : CocoImage) (s : Sample) =>
        s.anns.length =
          (coco.annotations.filter fun a => decide (a.image_id = im.id)).length)
      coco.images samples := by
  simp only [coco_to_samples] at h
  refine (mapOpt_forall₂ _ _ _ h).imp ?_
  intro im s hg
  rcases Option.map_eq_some'.mp hg with ⟨sts, hsts, hs⟩
  subst hs
  have hlen := mapOpt_length _ _ _ hsts
  simp only [hlen]
  rw [dictGetList_foldl_pushGroup]
  simp [dictGetList, dictGet]

/-- Witness for the amended C5 at the dangling-annotation input. -/
theorem coco_to_samples_filters_by_image_id_witness :
    coco_to_samples
        ⟨[⟨1, 100, 100, "img.jpg"⟩],
         [⟨1, 2, 1, ⟨10, 10, 20, 20⟩, 400, []⟩],
         [⟨1, "cat"⟩]⟩ none =
      some [{ image_name := some "img", anns := [] }] ∧
    List.Forall₂
      (fun (im : CocoImage) (s : Sample) =>
        s.anns.length =
          ([(⟨1, 2, 1, ⟨10, 10, 20, 20⟩, 400, []⟩ : CocoAnn)].filter fun a =>
            decide (a.image_id = im.id)).length)
      [⟨1, 100, 100, "img.jpg"⟩] [{ image_name := some "img", anns := [] }] :=
  ⟨by decide,
    coco_to_samples_filters_by_image_id
      ⟨[⟨1, 100, 100, "img.jpg"⟩],
       [⟨1, 2, 1, ⟨10, 10, 20, 20⟩, 400, []⟩],
       [⟨1, "cat"⟩]⟩ none
      [{ image_name := some "img", anns := [] }] (by decide)⟩

/-! ### Theorems about `samples_to_coco` (C10, C7) -/

theorem stAnnsLoop_forall₂ (width height : ℚ) (include_masks : Bool) (imgId : Nat) :
    ∀ (anns : List StAnn) (cats : List (String × Nat)) (annId : Nat),
      List.Forall₂
        (fun (a : StAnn) (rec : CocoOutAnn) =>
          a.box2d = none → rec.bbox = ⟨0, 0, 0, 0⟩ ∧ rec.area = 0)
        anns (stAnnsLoop width height include_masks imgId anns cats annId).1 := by
  intro anns
  induction anns with
  | nil => intro cats annId; exact List.Forall₂.nil
  | cons a rest ih =>
    intro cats annId
    refine List.Forall₂.cons ?_ (ih _ _)
    intro hb
    simp [stAnnRecord, hb]

theorem stSamplesLoop_anns_forall₂ (include_masks : Bool) :
    ∀ (samples : List Sample) (imgId : Nat) (cats : List (String × Nat)) (annId : Nat),
      List.Forall₂
        (fun (a : StAnn) (rec : CocoOutAnn) =>
          a.box2d = none → rec.bbox = ⟨0, 0, 0, 0⟩ ∧ rec.area = 0)
        ((samples.map (·.anns)).flatten)
        (stSamplesLoop include_masks samples imgId cats annId).2.1 := by
  intro samples
  induction samples with
  | nil => intro imgId cats annId; exact List.Forall₂.nil
  | cons s rest ih =>
    intro imgId cats annId
    simp only [List.map_cons, List.flatten_cons, stSamplesLoop]
    exact List.rel_append (stAnnsLoop_forall₂ _ _ _ _ _ _ _) (ih _ _ _)

/-- C10: degenerate-annotation export.  `samples_to_coco` emits exactly
one record per input annotation, in order (so annotation counts are
preserved), and a record whose source annotation has no `box2d` carries
`bbox = [0, 0, 0, 0]` and `area = 0`. -/
theorem samples_to_coco_degenerate (samples : List Sample) (include_masks : Bool) :
    List.Forall₂
      (fun (a : StAnn) (rec : CocoOutAnn) =>
        a.box2d = none → rec.bbox = ⟨0, 0, 0, 0⟩ ∧ rec.area = 0)
      ((samples.map (·.anns)).flatten)
      (samples_to_coco samples include_masks).annotations ∧
    ((samples_to_coco samples include_masks).annotations).length =
      ((samples.map (·.anns)).flatten).length := by
  have h := stSamplesLoop_anns_forall₂ include_masks samples 1 [] 1
  exact ⟨h, h.length_eq.symm⟩

theorem stAnnsLoop_cats (width height : ℚ) (include_masks : Bool) (imgId : Nat) :
    ∀ (anns : List StAnn) (cats : List (String × Nat)) (annId : Nat),
      (stAnnsLoop width height include_masks imgId anns cats annId).2.1 =
        List.foldl catStep cats (anns.map stLabel) := by
  intro anns
  induction anns with
  | nil => intro cats annId; rfl
  | cons a rest ih =>
    intro cats annId
    simp only [stAnnsLoop, List.map_cons, List.foldl_cons]
    exact ih _ _

theorem stSamplesLoop_cats (include_masks : Bool) :
    ∀ (samples : List Sample) (imgId : Nat) (cats : List (String × Nat)) (annId : Nat),
      (stSamplesLoop include_masks samples imgId cats annId).2.2.1 =
        List.foldl catStep cats (labelSeq samples) := by
  intro samples
  induction samples with
  | nil => intro imgId cats annId; rfl
  | cons s rest ih =>
    intro imgId cats annId
    simp only [stSamplesLoop, labelSeq, List.map_cons, List.flatten_cons,
      List.foldl_append]
    rw [ih]
    simp only [labelSeq]
    rw [stAnnsLoop_cats]

theorem catsOf_eq_foldl (samples : List Sample) (include_masks : Bool) :
    catsOf samples include_masks = List.foldl catStep [] (labelSeq samples) := by
  rw [catsOf, stSamplesLoop_cats]

/-- The claim's "first-seen order": the distinct labels, in order of
first occurrence. -/
def firstSeen (L : List String) : List String :=
  L.foldl (fun acc l => if l ∈ acc then acc else acc ++ [l]) []

theorem catStep_keys (cats : List (String × Nat)) (l : String) :
    (catStep cats l).map Prod.fst =
      if l ∈ cats.map Prod.fst then cats.map Prod.fst
      else cats.map Prod.fst ++ [l] := by
  by_cases h : l ∈ cats.map Prod.fst
  · have : (cats.find? fun kv => decide (kv.1 = l)).isSome := by
      rw [List.find?_isSome]
      rcases List.mem_map.mp h with ⟨kv, hkv, hl⟩
      exact ⟨kv, hkv, by simp [hl]⟩
    simp [catStep, this, h]
  · have : ¬ (cats.find? fun kv => decide (kv.1 = l)).isSome := by
      rw [List.find?_isSome]
      rintro ⟨kv, hkv, hl⟩
      exact h (List.mem_map.mpr ⟨kv, hkv, by simpa using hl⟩)
    simp [catStep, this, h]

theorem foldl_catStep_keys :
    ∀ (L : List String) (cs : List (String × Nat)),
      (List.foldl catStep cs L).map Prod.fst =
        List.foldl (fun acc l => if l ∈ acc then acc else acc ++ [l])
          (cs.map Prod.fst) L := by
  intro L
  induction L with
  | nil => intro cs; rfl
  | cons l L ih =>
    intro cs
    simp only [List.foldl_cons]
    rw [ih, catStep_keys]

theorem catStep_pos (cats : List (String × Nat)) (l : String)
    (h : ∀ i (hi : i < cats.length), (cats[i]).2 = i + 1) :
    ∀ i (hi : i < (catStep cats l).length), ((catStep cats l)[i]).2 = i + 1 := by
  by_cases hf : (cats.find? fun kv => decide (kv.1 = l)).isSome
  · have heq : catStep cats l = cats := by simp [catStep, hf]
    rw [heq]
    exact h
  · have heq : catStep cats l = cats ++ [(l, cats.length + 1)] := by
      simp [catStep, hf]
    rw [heq]
    intro i hi
    rcases Nat.lt_or_ge i cats.length with hlt | hge
    · rw [List.getElem_append_left hlt]
      exact h i hlt
    · have hlen : i = cats.length := by
        simp only [List.length_append, List.length_cons, List.length_nil] at hi
        omega
      rw [List.getElem_append_right hge]
      subst hlen
      simp

theorem catStep_nodup (cats : List (String × Nat)) (l : String)
    (h : (cats.map Prod.fst).Nodup) :
    ((catStep cats l).map Prod.fst).Nodup := by
  rw [catStep_keys]
  by_cases hm : l ∈ cats.map Prod.fst
  · rw [if_pos hm]; exact h
  · rw [if_neg hm]
    rw [List.nodup_append]
    refine ⟨h, List.nodup_singleton l, ?_⟩
    intro x hx hx'
    rw [List.mem_singleton] at hx'
    subst hx'
    exact hm hx

theorem foldl_catStep_good :
    ∀ (L : List String) (cs : List (String × Nat)),
      (∀ i (hi : i < cs.length), (cs[i]).2 = i + 1) →
      ((cs.map Prod.fst).Nodup) →
      (∀ i (hi : i < (List.foldl catStep cs L).length),
          ((List.foldl catStep cs L)[i]).2 = i + 1) ∧
        ((List.foldl catStep cs L).map Prod.fst).Nodup := by
  intro L
  induction L with
  | nil => intro cs h1 h2; exact ⟨h1, h2⟩
  | cons l L ih =>
    intro cs h1 h2
    exact ih (catStep cs l) (catStep_pos cs l h1) (catStep_nodup cs l h2)

theorem find?_key_of_nodup :
    ∀ (cats : List (String × Nat)), (cats.map Prod.fst).Nodup →
      ∀ name idx, (name, idx) ∈ cats →
        cats.find? (fun kv => decide (kv.1 = name)) = some (name, idx) := by
  intro cats
  induction cats with
  | nil => intro _ name idx h; exact absurd h (by simp)
  | cons kv rest ih =>
    intro hnd name idx hmem
    obtain ⟨k, v⟩ := kv
    simp only [List.map_cons, List.nodup_cons] at hnd
    rcases List.mem_cons.mp hmem with heq | hrest
    · have h1 : name = k := congrArg Prod.fst heq
      have h2 : idx = v := congrArg Prod.snd heq
      subst h1
      subst h2
      rw [List.find?_cons_of_pos _ (by simp)]
    · by_cases hk : k = name
      · exfalso
        apply hnd.1
        subst hk
        exact List.mem_map.mpr ⟨(k, idx), hrest, rfl⟩
      · rw [List.find?_cons_of_neg _ (by simpa using hk)]
        exact ih hnd.2 name idx hrest

theorem catLookup_iff_of_good (cats : List (String × Nat))
    (hpos : ∀ i (hi : i < cats.length), (cats[i]).2 = i + 1)
    (hnd : (cats.map Prod.fst).Nodup) (name : String) (idx : Nat) :
    catLookup cats name = some idx ↔
      ∃ h : idx - 1 < cats.length, 1 ≤ idx ∧ cats.get ⟨idx - 1, h⟩ = (name, idx) := by
  constructor
  · intro h
    rcases Option.map_eq_some'.mp h with ⟨kv, hfind, hsnd⟩
    have hp : kv.1 = name := by simpa using List.find?_some hfind
    have hmem : kv ∈ cats := List.mem_of_find?_eq_some hfind
    rcases List.mem_iff_getElem.mp hmem with ⟨i, hi, hget⟩
    have hidx : kv.2 = i + 1 := by rw [← hget]; exact hpos i hi
    have hidx' : idx = i + 1 := by rw [← hsnd, hidx]
    refine ⟨by omega, by omega, ?_⟩
    have : idx - 1 = i := by omega
    rw [List.get_eq_getElem]
    simp only [this]
    rw [hget, ← hp, ← hsnd]
  · rintro ⟨h, hge, hget⟩
    have hmem : (name, idx) ∈ cats := by
      rw [← hget]
      rw [List.get_eq_getElem]
      exact List.getElem_mem _
    rw [catLookup, find?_key_of_nodup cats hnd name idx hmem]
    rfl

/-- C7: category-resolver bijection in `samples_to_coco`.  For every
sample collection: (1) the category ids are exactly the dense range
`1..N` in list position order; (2) no two category entries share a name;
(3) the category names are exactly the distinct visited labels in
first-seen order (a new name receives id `len(categories) + 1`); (4) the
name→id lookup and the position-based id→entry view are mutual inverses;
(5) the emitted `categories` array is exactly this association in order.
(Determinism under repetition is inherent: the resolver state is a pure
fold over the visited label sequence.) -/
theorem samples_to_coco_category_bijection (samples : List Sample)
    (include_masks : Bool) :
    (∀ i (hi : i < (catsOf samples include_masks).length),
        ((catsOf samples include_masks)[i]).2 = i + 1) ∧
    ((catsOf samples include_masks).map Prod.fst).Nodup ∧
    (catsOf samples include_masks).map Prod.fst = firstSeen (labelSeq samples) ∧
    (∀ name idx, catLookup (catsOf samples include_masks) name = some idx ↔
        ∃ h : idx - 1 < (catsOf samples include_masks).length,
          1 ≤ idx ∧ (catsOf samples include_masks).get ⟨idx - 1, h⟩ = (name, idx)) ∧
    (samples_to_coco samples include_masks).categories =
      (catsOf samples include_masks).map fun kv => ⟨(kv.2 : ℤ), kv.1⟩ := by
  have hgood := foldl_catStep_good (labelSeq samples) [] (by simp) (by simp)
  rw [← catsOf_eq_foldl samples include_masks] at hgood
  refine ⟨hgood.1, hgood.2, ?_, ?_, rfl⟩
  · rw [catsOf_eq_foldl, foldl_catStep_keys, firstSeen]
    rfl
  · intro name idx
    exact catLookup_iff_of_good _ hgood.1 hgood.2 name idx

/-! ### Theorems about `_compare_coco_annotations` (C8, C9) -/

/-- C8 counterexample: two collections with the same image count but
entirely different image keys (`"a"` vs `"b"`).  The comparator leaves
`images_match = true` and records no difference — it compares image
counts, not image-key sets. -/
theorem compareCoco_key_sets_not_compared :
    compareCoco ⟨[⟨1, 100, 100, "a.jpg"⟩], [], [⟨1, "x"⟩]⟩
        ⟨[⟨1, 100, 100, "b.jpg"⟩], [], [⟨1, "x"⟩]⟩ 0 =
      some ⟨true, true, true, []⟩ ∧
    ([(⟨1, 100, 100, "a.jpg"⟩ : CocoImage)].map fun im => stem im.file_name) ≠
      ([(⟨1, 100, 100, "b.jpg"⟩ : CocoImage)].map fun im => stem im.file_name) := by
  constructor
  · decide
  · decide

theorem imgLoop_mem_false (tol : ℚ) (eg : List (String × List LB)) :
    ∀ (og : List (String × List LB)) (k : String) (oanns : List LB),
      (k, oanns) ∈ og → oanns.length ≠ (dictGetList eg k).length →
      (imgLoop tol eg og).1 = false := by
  intro og
  induction og with
  | nil => intro k oanns h; exact absurd h (by simp)
  | cons kv rest ih =>
    intro k oanns hmem hne
    obtain ⟨img, oa⟩ := kv
    rcases List.mem_cons.mp hmem with heq | hrest
    · have h1 : k = img := congrArg Prod.fst heq
      have h2 : oanns = oa := congrArg Prod.snd heq
      subst h1
      subst h2
      simp only [imgLoop, if_pos hne]
    · have hr := ih k oanns hrest hne
      simp only [imgLoop]
      by_cases hc : oa.length ≠ (dictGetList eg img).length
      · rw [if_pos hc]
      · rw [if_neg hc]
        simp [hr]

/-- C8 amended: the comparator compares image COUNTS, not key sets:
`images_match` is `false` exactly when the two image counts differ (a
key-set mismatch with equal counts goes unreported).  It continues past
an image-count mismatch: for any image key of the original grouping
whose annotation count differs from the export's (in particular a key
missing from the export, whose list is empty), `annotations_match` is
cleared — the comparison of annotations always runs. -/
theorem compareCoco_count_semantics (original exported : CocoData) (tol : ℚ)
    (r : CompResult) (h : compareCoco original exported tol = some r) :
    (r.images_match = true ↔ original.images.length = exported.images.length) ∧
    (∀ og eg,
      groupByImage original (catNameDict original.categories) = some og →
      groupByImage exported (catNameDict exported.categories) = some eg →
      ∀ k oanns, (k, oanns) ∈ og →
        oanns.length ≠ (dictGetList eg k).length →
        r.annotations_match = false) := by
  simp only [compareCoco] at h
  rcases Option.bind_eq_some.mp h with ⟨og, hog, h2⟩
  rcases Option.map_eq_some'.mp h2 with ⟨eg, heg, hr⟩
  subst hr
  constructor
  · simp [decide_eq_true_eq]
  · intro og' eg' hog' heg' k oanns hmem hne
    have hog'' : og' = og := by
      have := hog.symm.trans hog'
      exact (Option.some_inj.mp this).symm
    have heg'' : eg' = eg := by
      have := heg.symm.trans heg'
      exact (Option.some_inj.mp this).symm
    subst hog''
    subst heg''
    simpa using imgLoop_mem_false tol eg' og' k oanns hmem hne

/-- Witness for the amended C8: original with one annotation on image
`"a"`, export with none. -/
theorem compareCoco_count_semantics_witness :
    compareCoco ⟨[⟨1, 100, 100, "a.jpg"⟩], [⟨1, 1, 1, ⟨1, 1, 1, 1⟩, 0, []⟩], [⟨1, "x"⟩]⟩
        ⟨[⟨1, 100, 100, "a.jpg"⟩], [], [⟨1, "x"⟩]⟩ 0 =
      some ⟨true, false, true, [.annCount "a" 1 0]⟩ ∧
    (((⟨true, false, true, [.annCount "a" 1 0]⟩ : CompResult).images_match = true ↔
        ([(⟨1, 100, 100, "a.jpg"⟩ : CocoImage)]).length =
          ([(⟨1, 100, 100, "a.jpg"⟩ : CocoImage)]).length) ∧
      (∀ og eg,
        groupByImage ⟨[⟨1, 100, 100, "a.jpg"⟩], [⟨1, 1, 1, ⟨1, 1, 1, 1⟩, 0, []⟩], [⟨1, "x"⟩]⟩
            (catNameDict [⟨1, "x"⟩]) = some og →
        groupByImage ⟨[⟨1, 100, 100, "a.jpg"⟩], [], [⟨1, "x"⟩]⟩
            (catNameDict [⟨1, "x"⟩]) = some eg →
        ∀ k oanns, (k, oanns) ∈ og →
          oanns.length ≠ (dictGetList eg k).length →
          (⟨true, false, true, [.annCount "a" 1 0]⟩ : CompResult).annotations_match = false)) :=
  ⟨by decide,
    compareCoco_count_semantics
      ⟨[⟨1, 100, 100, "a.jpg"⟩], [⟨1, 1, 1, ⟨1, 1, 1, 1⟩, 0, []⟩], [⟨1, "x"⟩]⟩
      ⟨[⟨1, 100, 100, "a.jpg"⟩], [], [⟨1, "x"⟩]⟩ 0
      ⟨true, false, true, [.annCount "a" 1 0]⟩ (by decide)⟩

/-- The C9 scenario: one 100×100 image with a single `"x"`-labelled
annotation carrying the given pixel bbox (so a pixel difference of 2 is
a normalized difference of exactly 0.02). -/
def tolScenario (b : Box4) : CocoData :=
  ⟨[⟨1, 100, 100, "img.jpg"⟩], [⟨1, 1, 1, b, 0, []⟩], [⟨1, "x"⟩]⟩

theorem compareCoco_tolScenario (x y w h : ℚ) (t : ℚ) :
    compareCoco (tolScenario ⟨x, y, w, h⟩) (tolScenario ⟨x + 2, y, w, h⟩) t =
      some ⟨true,
        (bboxDiffs "img" 0 t
          (qdiv x 100, qdiv y 100, qdiv w 100, qdiv h 100)
          (qdiv (x + 2) 100, qdiv y 100, qdiv w 100, qdiv h 100)).isEmpty,
        true,
        bboxDiffs "img" 0 t
          (qdiv x 100, qdiv y 100, qdiv w 100, qdiv h 100)
          (qdiv (x + 2) 100, qdiv y 100, qdiv w 100, qdiv h 100)⟩ := by
  have hstem : stem "img.jpg" = "img" := by decide
  simp [compareCoco, tolScenario, groupByImage, catNameDict, buildDict,
    dictInsert, dictGet, dictGetList, normBBoxAt, pushGroup, setEqB,
    imgLoop, sortLB, pairsLoop, List.insertionSort, List.orderedInsert,
    List.find?, hstem]

/-- C9: comparator tolerance boundary.  For every pixel bbox on a
100×100 image, the exported bbox differing by exactly 2 pixels (0.02
normalized) in the first coordinate is reported as matching at tolerance
0.02 (the comparison is strict: `abs(o - e) > tolerance`), and as
mismatching, with a recorded difference, at tolerance 0.01. -/
theorem compareCoco_tolerance_boundary (x y w h : ℚ) :
    (∃ r, compareCoco (tolScenario ⟨x, y, w, h⟩)
        (tolScenario ⟨x + 2, y, w, h⟩) (2 / 100) = some r ∧
        r.annotations_match = true) ∧
    (∃ r, compareCoco (tolScenario ⟨x, y, w, h⟩)
        (tolScenario ⟨x + 2, y, w, h⟩) (1 / 100) = some r ∧
        r.annotations_match = false ∧ r.differences ≠ []) := by
  have e0 : ∀ a : ℚ, |qdiv a 100 - qdiv a 100| = 0 := by
    intro a; rw [sub_self, abs_zero]
  have e1 : |qdiv x 100 - qdiv (x + 2) 100| = 1 / 50 := by
    rw [qdiv_eq_div, qdiv_eq_div]
    have hx : x / 100 - (x + 2) / 100 = -(1 / 50) := by ring
    rw [hx, abs_neg]
    norm_num
  constructor
  · refine ⟨_, compareCoco_tolScenario x y w h (2 / 100), ?_⟩
    simp only [bboxDiffs, e0, e1]
    norm_num
  · refine ⟨_, compareCoco_tolScenario x y w h (1 / 100), ?_⟩
    simp only [bboxDiffs, e0, e1]
    norm_num

end EdgeFirst
